import Mathlib

/-!
Verification development for the codex two-agent / multi-agent orchestration
engine.  Definitions are shallow embeddings of the TypeScript source:

* `change_plan.ts` (zod `ActionSchema` / `ChangePlanSchema` / `validateChangePlan`)
* `context.ts` (`getFileHash`)
* `models.ts` (`shouldRetry`, the retry loop of `callArchitect`)
* `multi-agent/workflow-engine.ts` (`WorkflowEngine.handleNextAction`,
  `WorkflowEngine.attemptRecovery`)
* `orchestrator.ts` (`Orchestrator.run` execution loop,
  `Orchestrator.runHealthChecks`, `Orchestrator.attemptSelfHealing`,
  `Orchestrator.processCommandAction`)
-/

namespace Codex

/-! ## JSON values and the zod change-plan schema (`change_plan.ts`) -/

/-- Untyped JSON values, the input domain of `validateChangePlan`. -/
inductive JValue where
  | null : JValue
  | bool (b : Bool) : JValue
  | num (n : Int) : JValue
  | str (s : String) : JValue
  | arr (elems : List JValue) : JValue
  | obj (fields : List (String × JValue)) : JValue

/-- Field lookup on a JSON object (JS property access). -/
def lookupField (fields : List (String × JValue)) (key : String) : Option JValue :=
  match fields with
  | [] => none
  | (k, v) :: rest => if k = key then some v else lookupField rest key

/-- Structured validation error: the path names the offending field
(mirrors a zod issue). -/
structure VError where
  path : List String
  message : String
deriving DecidableEq

/-- The value set of the `expect` field accepted by
`z.enum(["pass", "fail"])` in `ActionSchema`. -/
inductive Expect where
  | pass : Expect
  | fail : Expect
deriving DecidableEq

/-- Fully-typed action, `z.infer<typeof ActionSchema>`. -/
inductive Action where
  | edit (file : String) (description : String) (hints : Option String) : Action
  | command (cmd : String) (expect : Option Expect) : Action
  | message (content : String) : Action
deriving DecidableEq

/-- Fully-typed change plan, `z.infer<typeof ChangePlanSchema>`. -/
structure ChangePlan where
  actions : List Action
deriving DecidableEq

/-- Parse a required `z.string()` field. -/
def parseStr (path : List String) (v : Option JValue) : Except VError String :=
  match v with
  | some (.str s) => .ok s
  | some _ => .error ⟨path, "Expected string"⟩
  | none => .error ⟨path, "Required"⟩

/-- Parse a `z.string().optional()` field. -/
def parseOptStr (path : List String) (v : Option JValue) : Except VError (Option String) :=
  match v with
  | none => .ok none
  | some (.str s) => .ok (some s)
  | some _ => .error ⟨path, "Expected string"⟩

/-- Parse the `expect: z.enum(["pass", "fail"]).optional()` field of the
command branch of `ActionSchema`. -/
def parseOptExpect (path : List String) (v : Option JValue) : Except VError (Option Expect) :=
  match v with
  | none => .ok none
  | some (.str s) =>
    if s = "pass" then .ok (some .pass)
    else if s = "fail" then .ok (some .fail)
    else .error ⟨path, "Invalid enum value"⟩
  | some _ => .error ⟨path, "Invalid enum value"⟩

/-- Parse the field set of the `edit` branch of `ActionSchema`. -/
def parseEditFields (path : List String) (file description hints : Option JValue) :
    Except VError Action :=
  match parseStr (path ++ ["file"]) file with
  | .error e => .error e
  | .ok f =>
    match parseStr (path ++ ["description"]) description with
    | .error e => .error e
    | .ok d =>
      match parseOptStr (path ++ ["hints"]) hints with
      | .error e => .error e
      | .ok h => .ok (.edit f d h)

/-- Parse the field set of the `command` branch of `ActionSchema`. -/
def parseCommandFields (path : List String) (cmd expect : Option JValue) :
    Except VError Action :=
  match parseStr (path ++ ["cmd"]) cmd with
  | .error e => .error e
  | .ok c =>
    match parseOptExpect (path ++ ["expect"]) expect with
    | .error e => .error e
    | .ok ex => .ok (.command c ex)

/-- Parse the field set of the `message` branch of `ActionSchema`. -/
def parseMessageFields (path : List String) (content : Option JValue) :
    Except VError Action :=
  match parseStr (path ++ ["content"]) content with
  | .error e => .error e
  | .ok c => .ok (.message c)

/-- Parse one action: `z.discriminatedUnion("kind", [...])` of `ActionSchema`. -/
def parseAction (path : List String) (v : JValue) : Except VError Action :=
  match v with
  | .obj fields =>
    match lookupField fields "kind" with
    | some (.str k) =>
      if k = "edit" then
        parseEditFields path (lookupField fields "file")
          (lookupField fields "description") (lookupField fields "hints")
      else if k = "command" then
        parseCommandFields path (lookupField fields "cmd") (lookupField fields "expect")
      else if k = "message" then
        parseMessageFields path (lookupField fields "content")
      else .error ⟨path ++ ["kind"], "Invalid discriminator value"⟩
    | _ => .error ⟨path ++ ["kind"], "Invalid discriminator value"⟩
  | _ => .error ⟨path, "Expected object"⟩

/-- Parse `z.array(ActionSchema)`, indexing the error path per element. -/
def parseActions (path : List String) (i : Nat) : List JValue → Except VError (List Action)
  | [] => .ok []
  | v :: rest =>
    match parseAction (path ++ [toString i]) v with
    | .error e => .error e
    | .ok a =>
      match parseActions path (i + 1) rest with
      | .error e => .error e
      | .ok as => .ok (a :: as)

/-- Embedding of `validateChangePlan`: `ChangePlanSchema.parse(input)`. -/
def validateChangePlan (v : JValue) : Except VError ChangePlan :=
  match v with
  | .obj fields =>
    match lookupField fields "actions" with
    | some (.arr xs) =>
      match parseActions ["actions"] 0 xs with
      | .error e => .error e
      | .ok as => .ok ⟨as⟩
    | some _ => .error ⟨["actions"], "Expected array"⟩
    | none => .error ⟨["actions"], "Required"⟩
  | _ => .error ⟨[], "Expected object"⟩

/-! Spec-side well-formedness predicates, written from the claim wording
(an action carries the required fields for its kind, and its optional
fields, when present, are well-typed). -/

/-- The field is present with a string value. -/
def isReqStr : Option JValue → Bool
  | some (.str _) => true
  | _ => false

/-- The field is absent, or present with a string value. -/
def isOptStr : Option JValue → Bool
  | none => true
  | some (.str _) => true
  | _ => false

/-- The field is absent, or present with a value of the `expect` enum. -/
def isOptExpect : Option JValue → Bool
  | none => true
  | some (.str s) => s = "pass" || s = "fail"
  | _ => false

/-- The action payload carries the required fields for its kind (and its
optional fields, when present, are well-typed). -/
def wellFormedAction (v : JValue) : Bool :=
  match v with
  | .obj fields =>
    match lookupField fields "kind" with
    | some (.str k) =>
      if k = "edit" then
        isReqStr (lookupField fields "file") && isReqStr (lookupField fields "description")
          && isOptStr (lookupField fields "hints")
      else if k = "command" then
        isReqStr (lookupField fields "cmd") && isOptExpect (lookupField fields "expect")
      else if k = "message" then
        isReqStr (lookupField fields "content")
      else false
    | _ => false
  | _ => false

/-- The action payload has a recognised kind but lacks a required field of
that kind. -/
def missingRequiredField (v : JValue) : Bool :=
  match v with
  | .obj fields =>
    match lookupField fields "kind" with
    | some (.str k) =>
      if k = "edit" then
        (lookupField fields "file").isNone || (lookupField fields "description").isNone
      else if k = "command" then (lookupField fields "cmd").isNone
      else if k = "message" then (lookupField fields "content").isNone
      else false
    | _ => false
  | _ => false

/-- The action payload is an object whose `kind` is not one of the three
recognised discriminator values. -/
def unknownKind (v : JValue) : Bool :=
  match v with
  | .obj fields =>
    match lookupField fields "kind" with
    | some (.str k) => !(k = "edit" || k = "command" || k = "message")
    | _ => true
  | _ => false

/-- Boolean success test on a validation result. -/
def isOkE {α : Type} (e : Except VError α) : Bool :=
  match e with
  | .ok _ => true
  | .error _ => false

/-! ## File-summary cache key (`context.ts`, `getFileHash`) -/

/-- UTF-8 encoding of one character, as byte values. -/
def charUtf8 (c : Char) : List Nat :=
  let n := c.toNat
  if n < 128 then [n]
  else if n < 2048 then [192 + n / 64, 128 + n % 64]
  else if n < 65536 then [224 + n / 4096, 128 + n / 64 % 64, 128 + n % 64]
  else [240 + n / 262144, 128 + n / 4096 % 64, 128 + n / 64 % 64, 128 + n % 64]

/-- UTF-8 bytes of a string (what `Buffer.from(s)` produces). -/
def utf8Bytes (s : String) : List Nat :=
  (s.toList.map charUtf8).flatten

/-- The base64 alphabet. -/
def base64Alphabet : List Char :=
  "ABCDEFGHIJKLMNOPQRSTUVWXYZabcdefghijklmnopqrstuvwxyz0123456789+/".toList

/-- One base64 digit. -/
def base64Digit (n : Nat) : Char :=
  base64Alphabet.getD n 'A'

/-- Base64 encoding of a byte list (`Buffer.prototype.toString("base64")`). -/
def base64Encode : List Nat → List Char
  | [] => []
  | [a] => [base64Digit (a / 4), base64Digit (a % 4 * 16), '=', '=']
  | [a, b] => [base64Digit (a / 4), base64Digit (a % 4 * 16 + b / 16),
      base64Digit (b % 16 * 4), '=']
  | a :: b :: c :: rest =>
    base64Digit (a / 4) :: base64Digit (a % 4 * 16 + b / 16) ::
      base64Digit (b % 16 * 4 + c / 64) :: base64Digit (c % 64) :: base64Encode rest

/-- The `.replace(/[/+=]/g, "_")` step applied to one character. -/
def sanitizeBase64Char (c : Char) : Char :=
  if c = '/' || c = '+' || c = '=' then '_' else c

/-- Length of a string as JavaScript reports it (UTF-16 code units). -/
def jsStringLength (s : String) : Nat :=
  s.toList.foldl (fun acc c => acc + (if c.toNat < 65536 then 1 else 2)) 0

/-- Embedding of `getFileHash` (success branch): the cache key is
`Buffer.from(filePath + content.length).toString("base64").replace(/[/+=]/g, "_")`.
The file content enters only through its length. -/
def getFileHash (filePath : String) (content : String) : String :=
  String.mk ((base64Encode (utf8Bytes (filePath ++ toString (jsStringLength content)))).map
    sanitizeBase64Char)

/-! ## Completion-client retry loop (`models.ts`) -/

/-- Shape of an error raised by the completion service, as inspected by
`shouldRetry`. -/
structure ApiError where
  isTimeout : Bool
  isConnection : Bool
  status : Option Int
  code : Option String
  errType : Option String
  message : String
deriving DecidableEq

/-- ASCII-lowercased character codes of a string. -/
def lowerCodes (s : String) : List Nat :=
  s.toList.map (fun c => if 65 ≤ c.toNat ∧ c.toNat ≤ 90 then c.toNat + 32 else c.toNat)

/-- Whether the first list is a prefix of the second. -/
def listStartsWith : List Nat → List Nat → Bool
  | [], _ => true
  | _ :: _, [] => false
  | p :: ps, x :: xs => decide (p = x) && listStartsWith ps xs

/-- Whether the pattern occurs contiguously inside the list. -/
def containsSeq (pat : List Nat) : List Nat → Bool
  | [] => listStartsWith pat []
  | x :: xs => listStartsWith pat (x :: xs) || containsSeq pat xs

/-- The `/rate limit/i.test(message)` check: a case-insensitive substring
match of "rate limit". -/
def mentionsRateLimit (s : String) : Bool :=
  containsSeq (lowerCodes "rate limit") (lowerCodes s)

/-- The rate-limit classification of `shouldRetry`. -/
def isRateLimitError (e : ApiError) : Bool :=
  decide (e.status = some 429) || decide (e.code = some "rate_limit_exceeded")
    || decide (e.errType = some "rate_limit_exceeded") || mentionsRateLimit e.message

/-- The 5xx-equivalent server-error classification of `shouldRetry`. -/
def isServerError (e : ApiError) : Bool :=
  match e.status with
  | some s => decide (500 ≤ s)
  | none => false

/-- The `MAX_RETRIES` constant of `models.ts`. -/
def MAX_RETRIES : Nat := 5

/-- Embedding of `shouldRetry(error, attempt)` (the backoff wait has no
bearing on the returned decision). -/
def shouldRetry (e : ApiError) (attempt : Nat) : Bool :=
  if MAX_RETRIES ≤ attempt then false
  else if e.isTimeout then true
  else if e.isConnection || isServerError e then true
  else if isRateLimitError e then true
  else false

/-- Outcome of a single completion-service attempt. -/
inductive AttemptResult where
  | success (text : String) : AttemptResult
  | failure (e : ApiError) : AttemptResult

/-- Final error of a completion-client call: a propagated service error, or
the dedicated after-maximum-retries error thrown after the loop. -/
inductive ModelCallError where
  | apiError (e : ApiError) : ModelCallError
  | exhaustedRetries : ModelCallError
deriving DecidableEq

/-- Embedding of the `for (attempt = 1; attempt <= MAX_RETRIES; attempt++)`
loop of `callArchitect` and `callCoder`: `oracle k` is the service outcome
of attempt `k`; the second component counts attempts made.  The fuel equals
the remaining loop iterations; when it runs out the post-loop
`throw new Error("... after maximum retries")` is reached. -/
def callModelLoop (oracle : Nat → AttemptResult) :
    Nat → Nat → Nat → Except ModelCallError String × Nat
  | 0, _, calls => (.error .exhaustedRetries, calls)
  | fuel + 1, attempt, calls =>
    if MAX_RETRIES < attempt then (.error .exhaustedRetries, calls)
    else
      match oracle attempt with
      | .success t => (.ok t, calls + 1)
      | .failure e =>
        if shouldRetry e attempt then callModelLoop oracle fuel (attempt + 1) (calls + 1)
        else (.error (.apiError e), calls + 1)

/-- Embedding of one `callArchitect` invocation: result together with the
number of completion-service attempts made. -/
def callArchitect (oracle : Nat → AttemptResult) : Except ModelCallError String × Nat :=
  callModelLoop oracle (MAX_RETRIES + 1) 1 0

/-! ## Workflow engine (`multi-agent/workflow-engine.ts`) -/

/-- Agent roles (`agent-registry.ts`). -/
inductive AgentRole where
  | orchestrator : AgentRole
  | architect : AgentRole
  | coder : AgentRole
  | tester : AgentRole
  | reviewer : AgentRole
deriving DecidableEq

/-- Workflow step status. -/
inductive StepStatus where
  | pending : StepStatus
  | inProgress : StepStatus
  | completed : StepStatus
  | failed : StepStatus
  | skipped : StepStatus
deriving DecidableEq

/-- Step inputs, as constructed by `createPlan`, `handleNextAction` and
`attemptRecovery`. -/
inductive StepInput where
  | task (description : String) : StepInput
  | recovery (reason : String) (previousRole : AgentRole) (previousInput : StepInput) : StepInput
  | question (question : String) (askedBy : AgentRole) : StepInput
  | continueAfterQuestion (originalInput : StepInput) : StepInput
  | recoveryTask (description : String) (originalError : String) : StepInput
deriving DecidableEq

/-- Embedding of `WorkflowStep`. -/
structure WorkflowStep where
  role : AgentRole
  input : StepInput
  output : Option String
  status : StepStatus
deriving DecidableEq

instance : Inhabited WorkflowStep :=
  ⟨⟨.orchestrator, .task "", none, .pending⟩⟩

/-- Workflow plan status. -/
inductive PlanStatus where
  | planning : PlanStatus
  | executing : PlanStatus
  | completed : PlanStatus
  | failed : PlanStatus
deriving DecidableEq

/-- Embedding of `WorkflowPlan`. -/
structure WorkflowPlan where
  steps : List WorkflowStep
  currentStepIndex : Nat
  status : PlanStatus
deriving DecidableEq

/-- Embedding of `NextAction` (`agent-interface.ts`). -/
inductive NextAction where
  | continueWith (nextRole : Option AgentRole) : NextAction
  | reject (reason : String) (suggestedRole : AgentRole) : NextAction
  | complete (finalOutput : String) : NextAction
  | question (question : String) (targetRole : AgentRole) : NextAction

/-- Index-aware map, mirroring in-place status updates of a JS array loop. -/
def mapWithIndex (f : Nat → WorkflowStep → WorkflowStep) :
    Nat → List WorkflowStep → List WorkflowStep
  | _, [] => []
  | i, s :: rest => f i s :: mapWithIndex f (i + 1) rest

/-- The `for (i = lo; i < hi; i++) steps[i].status = "skipped"` loop. -/
def markSkippedBetween (steps : List WorkflowStep) (lo hi : Nat) : List WorkflowStep :=
  mapWithIndex (fun i s => if lo ≤ i ∧ i < hi then { s with status := .skipped } else s) 0 steps

/-- Index-aware first-match search, mirroring `Array.prototype.findIndex`. -/
def findIndexFrom (p : Nat → WorkflowStep → Bool) :
    Nat → List WorkflowStep → Option Nat
  | _, [] => none
  | j, s :: rest => if p j s then some j else findIndexFrom p (j + 1) rest

/-- The `findIndex((step, index) => index > currentStepIndex && step.role === nextRole)`
search of the continue case. -/
def findRoleAfter (steps : List WorkflowStep) (cur : Nat) (r : AgentRole) : Option Nat :=
  findIndexFrom (fun j s => decide (cur < j) && decide (s.role = r)) 0 steps

/-- The `splice(k, 0, x)` insertion. -/
def insertAt (l : List WorkflowStep) (k : Nat) (x : WorkflowStep) : List WorkflowStep :=
  l.take k ++ x :: l.drop k

/-- The step the engine reads at `steps[currentStepIndex]`.  The JS code
would throw on an out-of-range index; theorems that depend on the read
assume the index is in range. -/
def currentStepOf (p : WorkflowPlan) : WorkflowStep :=
  p.steps.getD p.currentStepIndex default

/-- Embedding of `WorkflowEngine.handleNextAction`. -/
def handleNextAction (p : WorkflowPlan) (na : NextAction) : WorkflowPlan :=
  match na with
  | .continueWith none => { p with currentStepIndex := p.currentStepIndex + 1 }
  | .continueWith (some r) =>
    match findRoleAfter p.steps p.currentStepIndex r with
    | some nextIndex =>
      { p with
          steps := markSkippedBetween p.steps (p.currentStepIndex + 1) nextIndex,
          currentStepIndex := nextIndex }
    | none => { p with currentStepIndex := p.currentStepIndex + 1 }
  | .reject reason suggestedRole =>
    let cur := currentStepOf p
    { p with
        steps := insertAt p.steps (p.currentStepIndex + 1)
          ⟨suggestedRole, .recovery reason cur.role cur.input, none, .pending⟩,
        currentStepIndex := p.currentStepIndex + 1 }
  | .complete _ =>
    { p with
        steps := markSkippedBetween p.steps (p.currentStepIndex + 1) p.steps.length,
        currentStepIndex := p.steps.length,
        status := .completed }
  | .question q targetRole =>
    let asking := currentStepOf p
    let steps1 := insertAt p.steps (p.currentStepIndex + 1)
      ⟨targetRole, .question q asking.role, none, .pending⟩
    let asking1 := steps1.getD p.currentStepIndex default
    let steps2 := insertAt steps1 (p.currentStepIndex + 2)
      ⟨asking1.role, .continueAfterQuestion asking1.input, none, .pending⟩
    { p with steps := steps2, currentStepIndex := p.currentStepIndex + 1 }

/-- One step of a recovery plan returned by the orchestrator agent. -/
structure RecoveryStep where
  role : AgentRole
  action : String
deriving DecidableEq

/-- The orchestrator agent response inspected by `attemptRecovery`
(`nextAction.type === "continue" && output?.recoveryPlan`). -/
structure RecoveryResponse where
  nextAction : NextAction
  recoveryPlan : Option (List RecoveryStep)

/-- How the recovery attempt unfolds around the orchestrator agent call. -/
inductive RecoveryOutcome where
  | noOrchestrator : RecoveryOutcome
  | responded (resp : RecoveryResponse) : RecoveryOutcome
  | processThrew : RecoveryOutcome

/-- The `nextAction.type === "continue"` test. -/
def isContinueAction : NextAction → Bool
  | .continueWith _ => true
  | _ => false

/-- Embedding of `WorkflowEngine.attemptRecovery`.  A usable recovery plan is
spliced with `splice(currentIndex + 1, steps.length - currentIndex - 1, ...plan)`,
which replaces every step after the current index. -/
def attemptRecovery (p : WorkflowPlan) (errMsg : String) (outcome : RecoveryOutcome) :
    WorkflowPlan :=
  match outcome with
  | .noOrchestrator => { p with status := .failed }
  | .processThrew => { p with status := .failed }
  | .responded resp =>
    match resp.recoveryPlan, isContinueAction resp.nextAction with
    | some recSteps, true =>
      { p with
          steps := p.steps.take (p.currentStepIndex + 1) ++
            recSteps.map (fun s => ⟨s.role, .recoveryTask s.action errMsg, none, .pending⟩),
          currentStepIndex := p.currentStepIndex + 1 }
    | _, _ => { p with status := .failed }

/-- The part of a step unaffected by status updates: role, input, output. -/
def stepCore (s : WorkflowStep) : AgentRole × StepInput × Option String :=
  (s.role, s.input, s.output)

/-! ## Orchestrator (`orchestrator.ts`) -/

/-- Orchestrator states (`OrchestratorState` enum). -/
inductive OrchestratorState where
  | idle : OrchestratorState
  | architectCall : OrchestratorState
  | validatePlan : OrchestratorState
  | executingPlan : OrchestratorState
  | error : OrchestratorState
  | done : OrchestratorState
deriving DecidableEq

/-- Environment of one `Orchestrator.run` plan-execution loop:
`aborted i` is the abort-signal state observed at the top of iteration `i`;
`actionOk i` and `healthOk i` are the results of `processAction` and
`runHealthChecks` for action `i`. -/
structure RunEnv where
  aborted : Nat → Bool
  actionOk : Nat → Bool
  healthOk : Nat → Bool

/-- Embedding of the `for (i = 0; i < plan.actions.length; i++)` loop of
`Orchestrator.run`: returns the number of actions processed and the final
orchestrator state.  The abort signal is consulted at the top of each
iteration and breaks out of the loop; on a failed action the orchestrator
attempts a replan and breaks out either way (the replanned plan runs inside
`attemptReplan`); after the loop the final health checks and the telemetry
report run and the state is set to `DONE`. -/
def orchExecuteLoop (env : RunEnv) : Nat → Nat → Nat × OrchestratorState
  | 0, i => (i, .done)
  | remaining + 1, i =>
    if env.aborted i then (i, .done)
    else if env.actionOk i && env.healthOk i then orchExecuteLoop env remaining (i + 1)
    else (i + 1, .done)

/-- Embedding of the execution phase of `Orchestrator.run` over a plan of
`n` actions. -/
def orchRun (env : RunEnv) (n : Nat) : Nat × OrchestratorState :=
  orchExecuteLoop env n 0

/-- Result of a health check (`HealthCheckResult`). -/
structure HealthCheckResult where
  success : Bool
  message : String
deriving DecidableEq

/-- Agent-call events emitted while handling one action of the plan. -/
inductive OrchestratorEvent where
  | coderHealCall (hints : String) : OrchestratorEvent
  | replanCall : OrchestratorEvent
deriving DecidableEq

/-- The enriched hints of the self-healing retry:
`(action.hints || "") + "\n\nPrevious attempt failed with error: " + errorMessage + "\nPlease fix the issues and ensure the code compiles."`. -/
def selfHealingHints (hints : Option String) (errorMessage : String) : String :=
  hints.getD "" ++ "\n\nPrevious attempt failed with error: " ++ errorMessage ++
    "\nPlease fix the issues and ensure the code compiles."

/-- Embedding of `Orchestrator.attemptSelfHealing` as the list of implementer
(Coder) calls it makes: exactly one for an edit action, none otherwise. -/
def attemptSelfHealingEvents (a : Action) (errorMessage : String) : List OrchestratorEvent :=
  match a with
  | .edit _ _ hints => [.coderHealCall (selfHealingHints hints errorMessage)]
  | _ => []

/-- Result value of `Orchestrator.runHealthChecks`: the type-check result for
an edit action; commands and messages report success. -/
def runHealthChecksResult (a : Action) (typeCheck : HealthCheckResult) : HealthCheckResult :=
  match a with
  | .edit _ _ _ => typeCheck
  | .command _ _ => ⟨true, ""⟩
  | .message _ => ⟨true, ""⟩

/-- Agent calls made inside `Orchestrator.runHealthChecks`: on a failed
type check of an edit action, with a current plan present, exactly one
self-healing attempt is made. -/
def runHealthChecksEvents (a : Action) (typeCheck : HealthCheckResult) (planPresent : Bool) :
    List OrchestratorEvent :=
  match a with
  | .edit _ _ _ =>
    if !typeCheck.success && planPresent then attemptSelfHealingEvents a typeCheck.message
    else []
  | _ => []

/-- Agent calls made by the `Orchestrator.run` loop body for one action:
the health-check phase (with its self-healing attempt), then a replan call
when the action or its health check failed. -/
def orchActionStepEvents (a : Action) (actionOk : Bool) (typeCheck : HealthCheckResult)
    (planPresent : Bool) : List OrchestratorEvent :=
  runHealthChecksEvents a typeCheck planPresent ++
    (if !actionOk || !(runHealthChecksResult a typeCheck).success then [.replanCall] else [])

/-- Test for a self-healing Coder call event. -/
def isCoderHealCall : OrchestratorEvent → Bool
  | .coderHealCall _ => true
  | _ => false

/-- Embedding of `Orchestrator.processCommandAction` outcome logic:
`succeeded = metadata?.exit_code === 0`, `expectedPass = action.expect !== "fail"`,
and the step fails when the two disagree. -/
def processCommandAction (exitCode : Option Int) (expect : Option Expect) : Bool :=
  let succeeded := decide (exitCode = some 0)
  let expectedPass := decide (¬expect = some Expect.fail)
  succeeded == expectedPass

/-! ## Concrete payloads used by witnesses and counterexamples -/

/-- A well-formed edit action payload. -/
def editActionPayload : JValue :=
  .obj [("kind", .str "edit"), ("file", .str "src/foo.ts"), ("description", .str "Add helper")]

/-- A command action payload with the given `expect` string. -/
def commandActionPayload (expectValue : String) : JValue :=
  .obj [("kind", .str "command"), ("cmd", .str "npm test"), ("expect", .str expectValue)]

/-- A well-formed message action payload. -/
def messageActionPayload : JValue :=
  .obj [("kind", .str "message"), ("content", .str "hello")]

/-- An edit action payload missing its required `file` field. -/
def badEditPayload : JValue :=
  .obj [("kind", .str "edit"), ("description", .str "missing file")]

/-- A plan payload whose actions are all well-formed. -/
def goodPlanPayload : JValue :=
  .obj [("actions", .arr [editActionPayload, commandActionPayload "pass", messageActionPayload])]

/-- A plan payload containing an action missing a required field. -/
def badPlanPayload : JValue :=
  .obj [("actions", .arr [editActionPayload, badEditPayload])]

/-- A plan payload whose command action carries `expect: "unknown"`. -/
def unknownExpectPlanPayload : JValue :=
  .obj [("actions", .arr [commandActionPayload "unknown"])]

/-- A retryable timeout error from the completion service. -/
def timeoutError : ApiError :=
  ⟨true, false, none, none, none, ""⟩

/-- A non-retryable client error from the completion service. -/
def badRequestError : ApiError :=
  ⟨false, false, some 400, none, none, "Bad request"⟩

/-- A two-step plan whose first step just failed. -/
def recoveryDemoPlan : WorkflowPlan :=
  ⟨[⟨.coder, .task "edit file", none, .failed⟩,
    ⟨.tester, .task "run tests", none, .pending⟩], 0, .executing⟩

/-- A usable recovery response carrying a one-step recovery plan. -/
def recoveryDemoResponse : RecoveryResponse :=
  ⟨.continueWith none, some [⟨.coder, "fix build"⟩]⟩

/-- A plan with a pending tester step after a pending architect step. -/
def skipDemoPlan : WorkflowPlan :=
  ⟨[⟨.coder, .task "a", none, .completed⟩,
    ⟨.architect, .task "b", none, .pending⟩,
    ⟨.tester, .task "c", none, .pending⟩], 0, .executing⟩

/-- A plan where a completed tester step sits between the current step and
a later pending tester step. -/
def staleRoleDemoPlan : WorkflowPlan :=
  ⟨[⟨.coder, .task "a", none, .completed⟩,
    ⟨.tester, .task "b", none, .completed⟩,
    ⟨.tester, .task "c", none, .pending⟩], 0, .executing⟩

/-- A one-step plan whose current step is about to reject. -/
def rejectDemoPlan : WorkflowPlan :=
  ⟨[⟨.coder, .task "impl", none, .completed⟩], 0, .executing⟩

/-- A run environment whose abort signal is set from the start. -/
def abortedEnv : RunEnv :=
  ⟨fun _ => true, fun _ => true, fun _ => true⟩

/-- A run environment whose abort signal is observed from iteration 1 on. -/
def abortAfterOneEnv : RunEnv :=
  ⟨fun k => decide (1 ≤ k), fun _ => true, fun _ => true⟩

/-! # Theorems -/

/-! ## Validation lemmas -/

theorem isOkE_true_iff {α : Type} (e : Except VError α) : isOkE e = true ↔ ∃ a, e = .ok a := by
  cases e <;> simp [isOkE]

theorem isOkE_false_iff {α : Type} (e : Except VError α) :
    isOkE e = false ↔ ∃ err, e = .error err := by
  cases e <;> simp [isOkE]

theorem parseEditFields_isOk (p : List String) (f d h : Option JValue) :
    isOkE (parseEditFields p f d h) = (isReqStr f && isReqStr d && isOptStr h) := by
  rcases f with _ | jf
  · rfl
  rcases jf with _ | b | n | s | xs | flds <;> try rfl
  rcases d with _ | jd
  · rfl
  rcases jd with _ | b2 | n2 | s2 | xs2 | flds2 <;> try rfl
  rcases h with _ | jh
  · rfl
  rcases jh with _ | b3 | n3 | s3 | xs3 | flds3 <;> rfl

theorem parseCommandFields_isOk (p : List String) (c e : Option JValue) :
    isOkE (parseCommandFields p c e) = (isReqStr c && isOptExpect e) := by
  rcases c with _ | jc
  · rfl
  rcases jc with _ | b | n | s | xs | flds <;> try rfl
  rcases e with _ | je
  · rfl
  rcases je with _ | b2 | n2 | s2 | xs2 | flds2 <;> try rfl
  by_cases h1 : s2 = "pass" <;> by_cases h2 : s2 = "fail" <;>
    simp [parseCommandFields, parseStr, parseOptExpect, isReqStr, isOptExpect, h1, h2, isOkE]

theorem parseMessageFields_isOk (p : List String) (c : Option JValue) :
    isOkE (parseMessageFields p c) = isReqStr c := by
  rcases c with _ | jc
  · rfl
  rcases jc with _ | b | n | s | xs | flds <;> rfl

theorem parseAction_isOk (p : List String) (v : JValue) :
    isOkE (parseAction p v) = wellFormedAction v := by
  cases v with
  | null => rfl
  | bool b => rfl
  | num n => rfl
  | str s => rfl
  | arr xs => rfl
  | obj fields =>
    rcases hk : lookupField fields "kind" with _ | jk
    · simp [parseAction, wellFormedAction, hk, isOkE]
    cases jk with
    | str k =>
      simp only [parseAction, wellFormedAction, hk]
      by_cases h1 : k = "edit"
      · simp [h1, parseEditFields_isOk]
      by_cases h2 : k = "command"
      · simp [h1, h2, parseCommandFields_isOk]
      by_cases h3 : k = "message"
      · simp [h1, h2, h3, parseMessageFields_isOk]
      · simp [h1, h2, h3, isOkE]
    | null => simp [parseAction, wellFormedAction, hk, isOkE]
    | bool b => simp [parseAction, wellFormedAction, hk, isOkE]
    | num n => simp [parseAction, wellFormedAction, hk, isOkE]
    | arr xs2 => simp [parseAction, wellFormedAction, hk, isOkE]
    | obj flds2 => simp [parseAction, wellFormedAction, hk, isOkE]

theorem parseActions_length (xs : List JValue) :
    ∀ (p : List String) (i : Nat) (as : List Action),
      parseActions p i xs = .ok as → as.length = xs.length := by
  induction xs with
  | nil =>
    intro p i as h
    simp only [parseActions] at h
    cases h
    rfl
  | cons v rest ih =>
    intro p i as h
    simp only [parseActions] at h
    rcases ha : parseAction (p ++ [toString i]) v with e | a <;> rw [ha] at h
    · cases h
    rcases hrest : parseActions p (i + 1) rest with e2 | as2 <;> rw [hrest] at h
    · cases h
    cases h
    simp [ih p (i + 1) as2 hrest]

theorem parseActions_isOk (xs : List JValue) :
    ∀ (p : List String) (i : Nat),
      isOkE (parseActions p i xs) = xs.all wellFormedAction := by
  induction xs with
  | nil => intro p i; rfl
  | cons v rest ih =>
    intro p i
    simp only [parseActions, List.all_cons]
    rcases ha : parseAction (p ++ [toString i]) v with e | a
    · have hw : wellFormedAction v = false := by
        rw [← parseAction_isOk (p ++ [toString i]) v, ha]; rfl
      simp [ha, hw, isOkE]
    · have hw : wellFormedAction v = true := by
        rw [← parseAction_isOk (p ++ [toString i]) v, ha]; rfl
      have hr := ih p (i + 1)
      rcases hrest : parseActions p (i + 1) rest with e2 | as2 <;>
        rw [hrest] at hr <;> simp [ha, hrest, hw, ← hr, isOkE]

theorem isNone_of_isReqStr (o : Option JValue) (h : isReqStr o = true) : o.isNone = false := by
  cases o with
  | none => simp [isReqStr] at h
  | some j => rfl

theorem wellFormed_no_defect (v : JValue) (h : wellFormedAction v = true) :
    missingRequiredField v = false ∧ unknownKind v = false := by
  cases v with
  | null => simp [wellFormedAction] at h
  | bool b => simp [wellFormedAction] at h
  | num n => simp [wellFormedAction] at h
  | str s => simp [wellFormedAction] at h
  | arr xs => simp [wellFormedAction] at h
  | obj fields =>
    rcases hk : lookupField fields "kind" with _ | jk
    · simp [wellFormedAction, hk] at h
    cases jk with
    | str k =>
      simp only [wellFormedAction, hk] at h
      by_cases h1 : k = "edit"
      · rw [if_pos h1, Bool.and_eq_true, Bool.and_eq_true] at h
        simp [missingRequiredField, unknownKind, hk, h1,
          isNone_of_isReqStr _ h.1.1, isNone_of_isReqStr _ h.1.2]
      by_cases h2 : k = "command"
      · rw [if_neg h1, if_pos h2, Bool.and_eq_true] at h
        simp [missingRequiredField, unknownKind, hk, h1, h2, isNone_of_isReqStr _ h.1]
      by_cases h3 : k = "message"
      · rw [if_neg h1, if_neg h2, if_pos h3] at h
        simp [missingRequiredField, unknownKind, hk, h1, h2, h3, isNone_of_isReqStr _ h]
      · rw [if_neg h1, if_neg h2, if_neg h3] at h
        cases h
    | null => simp [wellFormedAction, hk] at h
    | bool b => simp [wellFormedAction, hk] at h
    | num n => simp [wellFormedAction, hk] at h
    | arr xs2 => simp [wellFormedAction, hk] at h
    | obj flds2 => simp [wellFormedAction, hk] at h

theorem defect_not_wellFormed (v : JValue)
    (h : (missingRequiredField v || unknownKind v) = true) :
    wellFormedAction v = false := by
  rcases hw : wellFormedAction v with _ | _
  · rfl
  · rcases wellFormed_no_defect v hw with ⟨hm, hu⟩
    rw [hm, hu] at h
    cases h

/-- C1: for every plan payload whose actions all carry the required fields
for their kind, validation succeeds and the action count is preserved (an
empty actions array succeeds); for every payload containing an action
missing a required field for its kind, or with an unknown kind value,
validation raises a structured validation error; by the return type no
partially-valid plan is ever produced. -/
theorem C1_validateChangePlan_total (fields : List (String × JValue)) (xs : List JValue)
    (hx : lookupField fields "actions" = some (.arr xs)) :
    (xs.all wellFormedAction = true →
      ∃ plan, validateChangePlan (.obj fields) = .ok plan ∧
        plan.actions.length = xs.length) ∧
    (∀ v, v ∈ xs → (missingRequiredField v || unknownKind v) = true →
      ∃ err, validateChangePlan (.obj fields) = .error err) := by
  constructor
  · intro hall
    have hok : isOkE (parseActions ["actions"] 0 xs) = true := by
      rw [parseActions_isOk]; exact hall
    rcases (isOkE_true_iff _).1 hok with ⟨as, has⟩
    refine ⟨⟨as⟩, ?_, ?_⟩
    · simp [validateChangePlan, hx, has]
    · simpa using parseActions_length xs ["actions"] 0 as has
  · intro v hv hbad
    have hnw : wellFormedAction v = false := defect_not_wellFormed v hbad
    have hall : xs.all wellFormedAction = false := by
      rcases ha : xs.all wellFormedAction with _ | _
      · rfl
      · rw [List.all_eq_true] at ha
        have := ha v hv
        rw [hnw] at this
        cases this
    have hko : isOkE (parseActions ["actions"] 0 xs) = false := by
      rw [parseActions_isOk]; exact hall
    rcases (isOkE_false_iff _).1 hko with ⟨err, herr⟩
    exact ⟨err, by simp [validateChangePlan, hx, herr]⟩

/-- Witness for C1: a concrete three-action payload validates with count 3,
and a concrete payload whose edit action lacks `file` is rejected. -/
theorem C1_witness :
    (∃ plan, validateChangePlan goodPlanPayload = .ok plan ∧ plan.actions.length = 3) ∧
    (∃ err, validateChangePlan badPlanPayload = .error err) := by
  constructor
  · rcases (C1_validateChangePlan_total
        [("actions", .arr [editActionPayload, commandActionPayload "pass", messageActionPayload])]
        [editActionPayload, commandActionPayload "pass", messageActionPayload] rfl).1
        (by rfl) with ⟨plan, hp, hl⟩
    exact ⟨plan, hp, hl⟩
  · rcases (C1_validateChangePlan_total
        [("actions", .arr [editActionPayload, badEditPayload])]
        [editActionPayload, badEditPayload] rfl).2 badEditPayload
        (List.mem_cons_of_mem _ (List.mem_cons_self _ _)) (by rfl) with ⟨err, he⟩
    exact ⟨err, he⟩

/-- C8 as stated is false on the code: the zod schema for the command
branch is `z.enum(["pass", "fail"]).optional()`, so the payload with
`expect: "unknown"` is rejected, not accepted. -/
theorem C8_counterexample :
    validateChangePlan unknownExpectPlanPayload =
      .error ⟨["actions", "0", "expect"], "Invalid enum value"⟩ := by
  rfl

/-- C8 amended: the fixed value set of a command action's `expect` field is
pass and fail (the field may also be absent): a command action whose
`expect` string is one of these two validates, and any other `expect`
string is rejected. -/
theorem C8_commandExpectEnum (cmd s : String) :
    ((s = "pass" ∨ s = "fail") →
      ∃ plan, validateChangePlan
        (.obj [("actions", .arr [.obj [("kind", .str "command"), ("cmd", .str cmd),
          ("expect", .str s)]])]) = .ok plan) ∧
    (¬(s = "pass" ∨ s = "fail") →
      ∃ err, validateChangePlan
        (.obj [("actions", .arr [.obj [("kind", .str "command"), ("cmd", .str cmd),
          ("expect", .str s)]])]) = .error err) := by
  constructor
  · rintro (rfl | rfl)
    · exact ⟨⟨[.command cmd (some .pass)]⟩, rfl⟩
    · exact ⟨⟨[.command cmd (some .fail)]⟩, rfl⟩
  · intro hs
    rcases not_or.1 hs with ⟨h1, h2⟩
    have hk : lookupField [("kind", JValue.str "command"), ("cmd", JValue.str cmd),
        ("expect", JValue.str s)] "kind" = some (.str "command") := rfl
    have he : lookupField [("kind", JValue.str "command"), ("cmd", JValue.str cmd),
        ("expect", JValue.str s)] "expect" = some (.str s) := rfl
    have hc : lookupField [("kind", JValue.str "command"), ("cmd", JValue.str cmd),
        ("expect", JValue.str s)] "cmd" = some (.str cmd) := rfl
    have hw : wellFormedAction (.obj [("kind", .str "command"), ("cmd", .str cmd),
        ("expect", .str s)]) = false := by
      simp [wellFormedAction, hk, hc, he, isReqStr, isOptExpect, h1, h2]
    have hko : isOkE (parseActions ["actions"] 0
        [.obj [("kind", .str "command"), ("cmd", .str cmd), ("expect", .str s)]]) = false := by
      rw [parseActions_isOk]
      simp [hw]
    rcases (isOkE_false_iff _).1 hko with ⟨err, herr⟩
    refine ⟨err, ?_⟩
    have ha : lookupField [("actions", JValue.arr [.obj [("kind", JValue.str "command"),
        ("cmd", JValue.str cmd), ("expect", JValue.str s)]])] "actions" =
        some (.arr [.obj [("kind", .str "command"), ("cmd", .str cmd), ("expect", .str s)]]) := rfl
    simp [validateChangePlan, ha, herr]

/-- Witness for C8 amended: `expect: "pass"` validates, `expect: "maybe"`
is rejected. -/
theorem C8_witness :
    (∃ plan, validateChangePlan
      (.obj [("actions", .arr [.obj [("kind", .str "command"), ("cmd", .str "npm test"),
        ("expect", .str "pass")]])]) = .ok plan) ∧
    (∃ err, validateChangePlan
      (.obj [("actions", .arr [.obj [("kind", .str "command"), ("cmd", .str "npm test"),
        ("expect", .str "maybe")]])]) = .error err) :=
  ⟨(C8_commandExpectEnum "npm test" "pass").1 (Or.inl rfl),
   (C8_commandExpectEnum "npm test" "maybe").2 (by decide)⟩

/-! ## File-hash theorems -/

/-- C9 as stated is false on the code: `getFileHash` hashes
`filePath + content.length`, so the two distinct contents "ab" and "cd"
of the same file produce the same cache key. -/
theorem C9_counterexample :
    getFileHash "a.ts" "ab" = getFileHash "a.ts" "cd" ∧ ("ab" : String) ≠ "cd" :=
  ⟨rfl, by decide⟩

/-- C9 amended: the cache key depends only on the file path and the
length of the content: unchanged content gives the same key, but any two
contents of equal length also collide, so a length-preserving content
change does not invalidate the cached entry. -/
theorem C9_getFileHash_lengthOnly (filePath c₁ c₂ : String)
    (h : jsStringLength c₁ = jsStringLength c₂) :
    getFileHash filePath c₁ = getFileHash filePath c₂ := by
  unfold getFileHash
  rw [h]

/-- Witness for C9 amended: two equal-length contents give the same key. -/
theorem C9_witness :
    jsStringLength "ab" = jsStringLength "xy" ∧
      getFileHash "a.ts" "ab" = getFileHash "a.ts" "xy" :=
  ⟨rfl, C9_getFileHash_lengthOnly "a.ts" "ab" "xy" rfl⟩

/-! ## Retry-loop lemmas -/

theorem callModelLoop_calls_le (oracle : Nat → AttemptResult) :
    ∀ (fuel attempt calls : Nat),
      (callModelLoop oracle fuel attempt calls).2 ≤ calls + (MAX_RETRIES + 1 - attempt) := by
  intro fuel
  induction fuel with
  | zero =>
    intro attempt calls
    simp [callModelLoop]
  | succ fuel ih =>
    intro attempt calls
    simp only [callModelLoop]
    by_cases hat : MAX_RETRIES < attempt
    · rw [if_pos hat]
      exact Nat.le_add_right _ _
    · rw [if_neg hat]
      rcases ho : oracle attempt with t | e <;> dsimp only
      · simp only [MAX_RETRIES] at hat ⊢
        omega
      · by_cases hr : shouldRetry e attempt
        · rw [if_pos hr]
          refine le_trans (ih (attempt + 1) (calls + 1)) ?_
          simp only [MAX_RETRIES] at hat ⊢
          omega
        · rw [if_neg hr]
          simp only [MAX_RETRIES] at hat ⊢
          omega

theorem callModelLoop_error_source (oracle : Nat → AttemptResult) :
    ∀ (fuel attempt calls : Nat) (e : ApiError),
      (callModelLoop oracle fuel attempt calls).1 = .error (.apiError e) →
      ∃ k, attempt ≤ k ∧ k ≤ MAX_RETRIES ∧ oracle k = .failure e ∧
        shouldRetry e k = false := by
  intro fuel
  induction fuel with
  | zero =>
    intro attempt calls e h
    simp [callModelLoop] at h
  | succ fuel ih =>
    intro attempt calls e h
    simp only [callModelLoop] at h
    by_cases hat : MAX_RETRIES < attempt
    · rw [if_pos hat] at h
      simp at h
    rw [if_neg hat] at h
    rcases ho : oracle attempt with t | e2 <;> rw [ho] at h <;> dsimp only at h
    · simp at h
    by_cases hr : shouldRetry e2 attempt
    · rw [if_pos hr] at h
      rcases ih (attempt + 1) (calls + 1) e h with ⟨k, hk1, hk2, hk3, hk4⟩
      exact ⟨k, by omega, hk2, hk3, hk4⟩
    · rw [if_neg hr] at h
      simp only at h
      have he : e2 = e := by
        cases h
        rfl
      subst he
      refine ⟨attempt, le_refl _, Nat.not_lt.1 hat, ho, ?_⟩
      revert hr
      cases shouldRetry e2 attempt <;> simp

theorem callModelLoop_no_exhaust (oracle : Nat → AttemptResult) :
    ∀ (fuel attempt calls : Nat), attempt ≤ MAX_RETRIES →
      MAX_RETRIES + 1 - attempt < fuel →
      (callModelLoop oracle fuel attempt calls).1 ≠ .error .exhaustedRetries := by
  intro fuel
  induction fuel with
  | zero =>
    intro attempt calls h2 h3
    simp only [MAX_RETRIES] at h2 h3
    omega
  | succ fuel ih =>
    intro attempt calls h2 h3
    simp only [callModelLoop]
    rw [if_neg (Nat.not_lt.2 h2)]
    rcases ho : oracle attempt with t | e <;> dsimp only
    · simp
    · by_cases hr : shouldRetry e attempt
      · rw [if_pos hr]
        have hlt : ¬ MAX_RETRIES ≤ attempt := by
          intro hle
          unfold shouldRetry at hr
          rw [if_pos hle] at hr
          simp at hr
        refine ih (attempt + 1) (calls + 1) ?_ ?_ <;> simp only [MAX_RETRIES] at * <;> omega
      · rw [if_neg hr]
        simp

/-- C6 as stated is false on the code: when the attempt budget is
exhausted on a retryable error, `shouldRetry` returns false at attempt 5
and `callArchitect` rethrows that retryable error itself; the dedicated
after-maximum-retries error is never produced.  With every attempt timing
out, the call fails with the timeout error, not an exhausted-retries
error. -/
theorem C6_counterexample :
    (callArchitect fun _ => .failure timeoutError) =
      (.error (.apiError timeoutError), 5) ∧
    ModelCallError.apiError timeoutError ≠ ModelCallError.exhaustedRetries :=
  ⟨rfl, by decide⟩

/-- C6 amended: the completion client makes at most 5 attempts per call;
every propagated error comes from an attempt on which `shouldRetry`
declined (a non-retryable error, or any error on the final attempt); the
dedicated exhausted-retries error is unreachable; and a non-retryable
error on the first attempt propagates immediately after exactly one
attempt. -/
theorem C6_callArchitect_retries (oracle : Nat → AttemptResult) :
    (callArchitect oracle).2 ≤ 5 ∧
    (callArchitect oracle).1 ≠ .error .exhaustedRetries ∧
    (∀ e, (callArchitect oracle).1 = .error (.apiError e) →
      ∃ k, 1 ≤ k ∧ k ≤ 5 ∧ oracle k = .failure e ∧ shouldRetry e k = false) ∧
    (∀ e, oracle 1 = .failure e → shouldRetry e 1 = false →
      callArchitect oracle = (.error (.apiError e), 1)) := by
  refine ⟨?_, ?_, ?_, ?_⟩
  · have h := callModelLoop_calls_le oracle (MAX_RETRIES + 1) 1 0
    simpa [callArchitect, MAX_RETRIES] using h
  · exact callModelLoop_no_exhaust oracle (MAX_RETRIES + 1) 1 0 (by decide) (by decide)
  · intro e h
    exact callModelLoop_error_source oracle (MAX_RETRIES + 1) 1 0 e h
  · intro e h1 h2
    simp [callArchitect, callModelLoop, MAX_RETRIES, h1, h2]

/-- Witness for C6 amended: a 400-class error on the first attempt is
propagated immediately, after exactly one attempt. -/
theorem C6_witness :
    (callArchitect fun _ => .failure badRequestError) =
      (.error (.apiError badRequestError), 1) :=
  (C6_callArchitect_retries fun _ => .failure badRequestError).2.2.2 badRequestError rfl rfl

/-! ## Workflow-engine lemmas -/

theorem getElem?_mapWithIndex (f : Nat → WorkflowStep → WorkflowStep) :
    ∀ (l : List WorkflowStep) (i k : Nat),
      (mapWithIndex f i l)[k]? = (l[k]?).map (f (i + k)) := by
  intro l
  induction l with
  | nil => intro i k; simp [mapWithIndex]
  | cons s rest ih =>
    intro i k
    cases k with
    | zero => simp [mapWithIndex]
    | succ k =>
      simp only [mapWithIndex, List.getElem?_cons_succ]
      rw [ih (i + 1) k, show i + 1 + k = i + (k + 1) from by omega]

theorem markSkippedBetween_getElem? (l : List WorkflowStep) (lo hi k : Nat) :
    (markSkippedBetween l lo hi)[k]? =
      (l[k]?).map (fun s => if lo ≤ k ∧ k < hi then { s with status := .skipped } else s) := by
  have h := getElem?_mapWithIndex
    (fun i s => if lo ≤ i ∧ i < hi then { s with status := .skipped } else s) l 0 k
  simpa [markSkippedBetween] using h

theorem mapWithIndex_map_stepCore (f : Nat → WorkflowStep → WorkflowStep)
    (hf : ∀ i s, stepCore (f i s) = stepCore s) :
    ∀ (i : Nat) (l : List WorkflowStep),
      (mapWithIndex f i l).map stepCore = l.map stepCore := by
  intro i l
  induction l generalizing i with
  | nil => rfl
  | cons s rest ih => simp [mapWithIndex, hf, ih]

theorem markSkippedBetween_map_stepCore (l : List WorkflowStep) (lo hi : Nat) :
    (markSkippedBetween l lo hi).map stepCore = l.map stepCore :=
  mapWithIndex_map_stepCore _ (by intro i s; split <;> rfl) 0 l

theorem map_stepCore_insertAt (l : List WorkflowStep) (k : Nat) (x : WorkflowStep) :
    (insertAt l k x).map stepCore =
      (l.take k).map stepCore ++ stepCore x :: (l.drop k).map stepCore := by
  simp [insertAt]

theorem core_sublist_insertAt (l : List WorkflowStep) (k : Nat) (x : WorkflowStep) :
    (l.map stepCore).Sublist ((insertAt l k x).map stepCore) := by
  rw [map_stepCore_insertAt]
  conv_lhs => rw [← List.take_append_drop k l, List.map_append]
  exact List.Sublist.append_left (List.sublist_cons_self _ _) _

/-- C2 as stated is false on the code: `attemptRecovery`, given a usable
recovery plan, splices with delete count `steps.length - currentIndex - 1`,
removing every step after the current index; here the pending tester step
disappears from the plan. -/
theorem C2_counterexample :
    ((attemptRecovery recoveryDemoPlan "boom" (.responded recoveryDemoResponse)).steps.map
        stepCore =
      [(.coder, .task "edit file", none), (.coder, .recoveryTask "fix build" "boom", none)]) ∧
    (AgentRole.tester, StepInput.task "run tests", (none : Option String)) ∈
      recoveryDemoPlan.steps.map stepCore ∧
    (AgentRole.tester, StepInput.task "run tests", (none : Option String)) ∉
      (attemptRecovery recoveryDemoPlan "boom" (.responded recoveryDemoResponse)).steps.map
        stepCore := by
  refine ⟨rfl, ?_, ?_⟩ <;> decide

/-- C2 amended: `handleNextAction` never removes a step (for every next
action, the old step list embeds into the new one up to status changes);
`attemptRecovery` leaves the step list unchanged unless the coordinator
returns a usable recovery plan, in which case every step after the current
index is removed and replaced by the recovery steps, while the steps up to
and including the current index are preserved. -/
theorem C2_steps_preserved :
    (∀ (p : WorkflowPlan) (na : NextAction),
      (p.steps.map stepCore).Sublist ((handleNextAction p na).steps.map stepCore)) ∧
    (∀ (p : WorkflowPlan) (errMsg : String) (resp : RecoveryResponse)
      (recSteps : List RecoveryStep), resp.recoveryPlan = some recSteps →
      isContinueAction resp.nextAction = true →
      (attemptRecovery p errMsg (.responded resp)).steps =
        p.steps.take (p.currentStepIndex + 1) ++
          recSteps.map (fun s => ⟨s.role, .recoveryTask s.action errMsg, none, .pending⟩)) ∧
    (∀ (p : WorkflowPlan) (errMsg : String) (resp : RecoveryResponse),
      resp.recoveryPlan = none ∨ isContinueAction resp.nextAction = false →
      (attemptRecovery p errMsg (.responded resp)).steps = p.steps) ∧
    (∀ (p : WorkflowPlan) (errMsg : String),
      (attemptRecovery p errMsg .noOrchestrator).steps = p.steps ∧
      (attemptRecovery p errMsg .processThrew).steps = p.steps) := by
  refine ⟨?_, ?_, ?_, ?_⟩
  · intro p na
    cases na with
    | continueWith o =>
      cases o with
      | none => exact List.Sublist.refl _
      | some r =>
        simp only [handleNextAction]
        cases hf : findRoleAfter p.steps p.currentStepIndex r with
        | none => exact List.Sublist.refl _
        | some j =>
          rw [markSkippedBetween_map_stepCore]
    | reject reason sr => exact core_sublist_insertAt _ _ _
    | complete out =>
      simp only [handleNextAction]
      rw [markSkippedBetween_map_stepCore]
    | question q tr =>
      simp only [handleNextAction]
      exact List.Sublist.trans (core_sublist_insertAt _ _ _) (core_sublist_insertAt _ _ _)
  · intro p errMsg resp recSteps h1 h2
    simp [attemptRecovery, h1, h2]
  · intro p errMsg resp h
    rcases hp : resp.recoveryPlan with _ | recSteps
    · simp [attemptRecovery, hp]
    · rcases h with h | h
      · rw [hp] at h
        cases h
      · simp [attemptRecovery, hp, h]
  · intro p errMsg
    exact ⟨rfl, rfl⟩

/-- Witness for C2 amended: on the concrete two-step plan, a reject does
not remove steps, and the usable recovery response replaces the tail. -/
theorem C2_witness :
    ((recoveryDemoPlan.steps.map stepCore).Sublist
      ((handleNextAction recoveryDemoPlan (.reject "r" .architect)).steps.map stepCore)) ∧
    (attemptRecovery recoveryDemoPlan "boom" (.responded recoveryDemoResponse)).steps =
      recoveryDemoPlan.steps.take 1 ++
        [⟨.coder, .recoveryTask "fix build" "boom", none, .pending⟩] :=
  ⟨C2_steps_preserved.1 recoveryDemoPlan (.reject "r" .architect),
   C2_steps_preserved.2.1 recoveryDemoPlan "boom" recoveryDemoResponse
     [⟨.coder, "fix build"⟩] rfl rfl⟩

theorem findIndexFrom_some (p : Nat → WorkflowStep → Bool) :
    ∀ (l : List WorkflowStep) (j i : Nat), findIndexFrom p j l = some i →
      j ≤ i ∧ (∃ s, l[i - j]? = some s ∧ p i s = true) ∧
      ∀ k s, j ≤ k → k < i → l[k - j]? = some s → p k s = false := by
  intro l
  induction l with
  | nil => intro j i h; simp [findIndexFrom] at h
  | cons s rest ih =>
    intro j i h
    simp only [findIndexFrom] at h
    by_cases hp : p j s
    · rw [if_pos hp] at h
      cases h
      refine ⟨le_refl _, ⟨s, by simp, hp⟩, ?_⟩
      intro k s2 hk1 hk2 _
      omega
    · rw [if_neg hp] at h
      rcases ih (j + 1) i h with ⟨h1, ⟨s2, hs2, hps⟩, hall⟩
      refine ⟨by omega, ⟨s2, ?_, hps⟩, ?_⟩
      · rw [show i - j = (i - (j + 1)) + 1 from by omega]
        simpa using hs2
      · intro k s3 hk1 hk2 hget
        by_cases hkj : k = j
        · subst hkj
          rw [Nat.sub_self] at hget
          simp only [List.getElem?_cons_zero] at hget
          cases hget
          cases hb : p k s
          · rfl
          · exact absurd hb hp
        · have hk1b : j + 1 ≤ k := by omega
          apply hall k s3 hk1b hk2
          rw [show k - (j + 1) = (k - j) - 1 from by omega]
          rw [show k - j = ((k - j) - 1) + 1 from by omega] at hget
          simpa using hget

theorem findIndexFrom_none (p : Nat → WorkflowStep → Bool) :
    ∀ (l : List WorkflowStep) (j : Nat), findIndexFrom p j l = none →
      ∀ k s, l[k]? = some s → p (j + k) s = false := by
  intro l
  induction l with
  | nil => intro j _ k s hget; simp at hget
  | cons s rest ih =>
    intro j h k s2 hget
    simp only [findIndexFrom] at h
    by_cases hp : p j s
    · rw [if_pos hp] at h
      cases h
    · rw [if_neg hp] at h
      cases k with
      | zero =>
        simp only [List.getElem?_cons_zero] at hget
        cases hget
        rw [Nat.add_zero]
        cases hb : p j s
        · rfl
        · exact absurd hb hp
      | succ k =>
        simp only [List.getElem?_cons_succ] at hget
        rw [show j + (k + 1) = (j + 1) + k from by omega]
        exact ih (j + 1) h k s2 hget

theorem findRoleAfter_some (steps : List WorkflowStep) (cur : Nat) (r : AgentRole) (j : Nat)
    (h : findRoleAfter steps cur r = some j) :
    cur < j ∧ (∃ s, steps[j]? = some s ∧ s.role = r) ∧
      ∀ k s, cur < k → k < j → steps[k]? = some s → s.role ≠ r := by
  rcases findIndexFrom_some _ steps 0 j h with ⟨_, ⟨s, hs, hp⟩, hall⟩
  rw [Bool.and_eq_true] at hp
  refine ⟨of_decide_eq_true hp.1, ⟨s, by simpa using hs, of_decide_eq_true hp.2⟩, ?_⟩
  intro k s2 hk1 hk2 hget hr2
  have hfalse := hall k s2 (Nat.zero_le k) hk2 (by simpa using hget)
  simp [hk1, hr2] at hfalse

theorem findRoleAfter_none (steps : List WorkflowStep) (cur : Nat) (r : AgentRole)
    (h : findRoleAfter steps cur r = none) :
    ∀ k s, cur < k → steps[k]? = some s → s.role ≠ r := by
  intro k s hk hget hr
  have hfalse := findIndexFrom_none _ steps 0 h k s hget
  simp [hk, hr] at hfalse

/-- C4 as stated is false on the code: the forward search of the continue
case ignores step status.  Here the first tester step after the current
index is already completed while a pending tester step exists further on;
the claim requires the index to land on the pending tester step at index 2
with the intervening step skipped, but the engine lands on index 1 and
skips nothing. -/
theorem C4_counterexample :
    staleRoleDemoPlan.steps[2]? = some ⟨.tester, .task "c", none, .pending⟩ ∧
    (handleNextAction staleRoleDemoPlan (.continueWith (some .tester))).currentStepIndex = 1 ∧
    (handleNextAction staleRoleDemoPlan (.continueWith (some .tester))).currentStepIndex ≠ 2 ∧
    (handleNextAction staleRoleDemoPlan (.continueWith (some .tester))).steps[1]? =
      some ⟨.tester, .task "b", none, .completed⟩ := by
  refine ⟨rfl, rfl, by decide, rfl⟩

/-- C4 amended: on `Continue` with a named role, the engine searches
forward for the first later step with that role regardless of its status;
every step strictly between the current index and that step is marked
skipped, the index moves there, and all other steps are unchanged; when no
later step has the role at all, the index advances by exactly one. -/
theorem C4_continue_targets_first_role_match (p : WorkflowPlan) (r : AgentRole) :
    (∀ j, findRoleAfter p.steps p.currentStepIndex r = some j →
      (handleNextAction p (.continueWith (some r))).currentStepIndex = j ∧
      p.currentStepIndex < j ∧
      (∃ s, p.steps[j]? = some s ∧ s.role = r) ∧
      (∀ k s, p.currentStepIndex < k → k < j → p.steps[k]? = some s → s.role ≠ r) ∧
      (∀ k, (handleNextAction p (.continueWith (some r))).steps[k]? =
        (p.steps[k]?).map (fun s =>
          if p.currentStepIndex + 1 ≤ k ∧ k < j then { s with status := .skipped } else s))) ∧
    (findRoleAfter p.steps p.currentStepIndex r = none →
      handleNextAction p (.continueWith (some r)) =
        { p with currentStepIndex := p.currentStepIndex + 1 } ∧
      (∀ k s, p.currentStepIndex < k → p.steps[k]? = some s → s.role ≠ r)) := by
  constructor
  · intro j hj
    rcases findRoleAfter_some p.steps p.currentStepIndex r j hj with ⟨h1, h2, h3⟩
    refine ⟨?_, h1, h2, h3, ?_⟩
    · simp [handleNextAction, hj]
    · intro k
      simp only [handleNextAction, hj]
      exact markSkippedBetween_getElem? p.steps (p.currentStepIndex + 1) j k
  · intro hnone
    refine ⟨?_, findRoleAfter_none _ _ _ hnone⟩
    simp [handleNextAction, hnone]

/-- Witness for C4 amended: on the concrete plan the engine lands on the
tester step at index 2 and the architect step at index 1 ends skipped. -/
theorem C4_witness :
    (handleNextAction skipDemoPlan (.continueWith (some .tester))).currentStepIndex = 2 ∧
    (handleNextAction skipDemoPlan (.continueWith (some .tester))).steps[1]? =
      some ⟨.architect, .task "b", none, .skipped⟩ := by
  rcases (C4_continue_targets_first_role_match skipDemoPlan .tester).1 2 rfl with
    ⟨hidx, _, _, _, hsteps⟩
  refine ⟨hidx, ?_⟩
  rw [hsteps 1]
  rfl

/-- C5: on `Reject{reason, suggestedRole}`, exactly one new pending step
for the suggested role is inserted immediately after the current index,
carrying the rejection reason and the rejecting step's role and input, and
the current index advances onto the inserted step. -/
theorem C5_reject_inserts_step (p : WorkflowPlan) (reason : String) (sr : AgentRole)
    (s : WorkflowStep) (hs : p.steps[p.currentStepIndex]? = some s) :
    (handleNextAction p (.reject reason sr)).steps =
      p.steps.take (p.currentStepIndex + 1) ++
        ⟨sr, .recovery reason s.role s.input, none, .pending⟩ ::
          p.steps.drop (p.currentStepIndex + 1) ∧
    (handleNextAction p (.reject reason sr)).currentStepIndex = p.currentStepIndex + 1 ∧
    (handleNextAction p (.reject reason sr)).steps[p.currentStepIndex + 1]? =
      some ⟨sr, .recovery reason s.role s.input, none, .pending⟩ ∧
    (handleNextAction p (.reject reason sr)).steps.length = p.steps.length + 1 := by
  have hlen : p.currentStepIndex < p.steps.length := by
    by_contra hge
    rw [List.getElem?_eq_none (by omega)] at hs
    cases hs
  have hcur : currentStepOf p = s := by
    simp [currentStepOf, List.getD_eq_getElem?_getD, hs]
  refine ⟨?_, rfl, ?_, ?_⟩
  · simp [handleNextAction, hcur, insertAt]
  · simp only [handleNextAction, hcur, insertAt]
    have hl : (p.steps.take (p.currentStepIndex + 1)).length = p.currentStepIndex + 1 := by
      rw [List.length_take]
      omega
    rw [List.getElem?_append_right (by omega), hl]
    simp
  · simp only [handleNextAction, hcur, insertAt]
    rw [List.length_append, List.length_take, List.length_cons, List.length_drop]
    omega

/-- Witness for C5: on a concrete one-step plan, rejecting to the
architect inserts the recovery step at index 1 and moves there. -/
theorem C5_witness :
    (handleNextAction rejectDemoPlan (.reject "cannot" .architect)).steps =
      [⟨.coder, .task "impl", none, .completed⟩,
       ⟨.architect, .recovery "cannot" .coder (.task "impl"), none, .pending⟩] ∧
    (handleNextAction rejectDemoPlan (.reject "cannot" .architect)).currentStepIndex = 1 := by
  rcases C5_reject_inserts_step rejectDemoPlan "cannot" AgentRole.architect
      ⟨.coder, .task "impl", none, .completed⟩ rfl with ⟨h1, h2, _, _⟩
  refine ⟨?_, h2⟩
  rw [h1]
  rfl

/-! ## Orchestrator theorems -/

theorem orchExecuteLoop_abort_spec (env : RunEnv) :
    ∀ (d i rem : Nat), d < rem → env.aborted (i + d) = true →
      (∀ j, j < d → env.aborted (i + j) = false) →
      (∀ j, j < d → (env.actionOk (i + j) && env.healthOk (i + j)) = true) →
      orchExecuteLoop env rem i = (i + d, .done) := by
  intro d
  induction d with
  | zero =>
    intro i rem hrem habort _ _
    rcases rem with _ | rem
    · omega
    · rw [Nat.add_zero] at habort
      simp [orchExecuteLoop, habort]
  | succ d ih =>
    intro i rem hrem habort hnoab hok
    rcases rem with _ | rem
    · omega
    simp only [orchExecuteLoop]
    have h0 : env.aborted i = false := by
      have := hnoab 0 (by omega)
      simpa using this
    have h1 : (env.actionOk i && env.healthOk i) = true := by
      have := hok 0 (by omega)
      simpa using this
    rw [if_neg (by simp [h0]), if_pos h1]
    have h2 := ih (i + 1) rem (by omega)
      (by rw [show i + 1 + d = i + (d + 1) from by omega]; exact habort)
      (fun j hj => by
        rw [show i + 1 + j = i + (j + 1) from by omega]
        exact hnoab (j + 1) (by omega))
      (fun j hj => by
        rw [show i + 1 + j = i + (j + 1) from by omega]
        exact hok (j + 1) (by omega))
    rw [h2, show i + 1 + d = i + (d + 1) from by omega]

/-- C3 as stated is false on the code: in `Orchestrator.run`, once the
abort signal is observed at the top of a loop iteration the loop breaks
and no further action is processed, but no failed status is ever set: the
orchestrator proceeds to the final health checks and the telemetry report
and finishes in state DONE (the `OrchestratorState` enum has no failed
member, and the error state is not entered). -/
theorem C3_counterexample :
    orchRun abortedEnv 1 = (0, .done) ∧
    OrchestratorState.done ≠ OrchestratorState.error :=
  ⟨rfl, by decide⟩

/-- C3 amended: the shared abort signal is checked at the top of every
iteration of the plan-execution loop; in every run in which the signal is
observed at the top of iteration `i` (after `i` clean iterations), exactly
the first `i` actions are processed, no further step is scheduled, and the
run finishes in state DONE rather than any failed state. -/
theorem C3_cancellation_stops_scheduling (env : RunEnv) (n i : Nat) (hin : i < n)
    (habort : env.aborted i = true)
    (hnoab : ∀ j, j < i → env.aborted j = false)
    (hok : ∀ j, j < i → (env.actionOk j && env.healthOk j) = true) :
    orchRun env n = (i, .done) := by
  have h := orchExecuteLoop_abort_spec env i 0 n hin (by simpa using habort)
    (fun j hj => by simpa using hnoab j hj)
    (fun j hj => by simpa using hok j hj)
  simpa [orchRun] using h

/-- Witness for C3 amended: with the signal observed from iteration 1 on,
a three-action run processes exactly one action and finishes done. -/
theorem C3_witness : orchRun abortAfterOneEnv 3 = (1, .done) :=
  C3_cancellation_stops_scheduling abortAfterOneEnv 3 1 (by omega) rfl
    (fun j hj => by
      have hj0 : j = 0 := by omega
      subst hj0
      rfl)
    (fun j _ => rfl)

/-- C7: for an edit action whose post-step type check fails (with the
current plan present, as it always is during execution), the orchestrator
makes exactly one self-healing Coder call, with the failure text appended
to the action's hints, and that call precedes the replan escalation; a
passing health check triggers no self-healing call. -/
theorem C7_single_self_healing (file description : String) (hints : Option String)
    (actionOk : Bool) (msg : String) :
    orchActionStepEvents (.edit file description hints) actionOk ⟨false, msg⟩ true =
      [.coderHealCall (hints.getD "" ++ "\n\nPrevious attempt failed with error: " ++ msg ++
        "\nPlease fix the issues and ensure the code compiles."), .replanCall] ∧
    (orchActionStepEvents (.edit file description hints) actionOk ⟨false, msg⟩ true).countP
      isCoderHealCall = 1 ∧
    orchActionStepEvents (.edit file description hints) true ⟨true, ""⟩ true = [] := by
  refine ⟨?_, ?_, rfl⟩ <;> cases actionOk <;> rfl

/-- C10: a command action with no `expect` field succeeds exactly when the
exit code is 0; `expect: "pass"` behaves the same; only `expect: "fail"`
inverts the expectation, succeeding exactly when the exit code is
nonzero. -/
theorem C10_command_expect_semantics (n : Int) :
    (processCommandAction (some n) none = true ↔ n = 0) ∧
    (processCommandAction (some n) (some .pass) = true ↔ n = 0) ∧
    (processCommandAction (some n) (some .fail) = true ↔ n ≠ 0) := by
  by_cases hn : n = 0 <;>
    simp [processCommandAction, hn]

end Codex


